import Mathlib

/-!
Shallow embedding of the computational core of the groovy-viz cellular
automaton visualizer (src/src/App.jsx), together with theorems settling the
frozen claims about it.

Modelling conventions:
- a cell is a Bool (the source uses 0/1 entries of Uint8Array; JS bit xor on
  0/1 values is Bool.xor);
- a 1D state is a List Bool, index arithmetic is done modulo the length
  exactly as in the source;
- the source decodes a rule number by writing it in binary, padding to
  8 (resp. 16) digits, reversing, and indexing the digit list: digit idx of
  the reversed padded string is the idx-th binary digit of the number,
  i.e. n / 2 ^ idx % 2 (nthBit below);
- the null previous-derivative (no history) is Option.none; the source tests
  truthiness of prevDerivative, and only null is falsy there (a Uint8Array is
  always truthy);
- JS division is total but yields NaN for 0/0; density therefore returns an
  Option, with none standing for the NaN produced on a zero-length array;
- 2D grids are List (List ℕ), with the neighbor sum over the 8 Moore
  neighbors written out in the loop order of the source (dy, dx from -1 to 1,
  skipping (0,0)); membership in the birth/survive arrays is list membership.
-/

namespace GroovyViz

/-- Binary digit idx of n, at the place value 2 ^ idx: this is what indexing
the reversed padded binary string of n yields in the source. -/
def nthBit (n idx : ℕ) : Bool := n / 2 ^ idx % 2 = 1

/-- ruleToDict: the 8-entry lookup table of a Wolfram rule number; the entry
for neighborhood (a, b, c) is binary digit 4a + 2b + c of the rule number. -/
def ruleToDict (ruleNumber : ℕ) : Bool → Bool → Bool → Bool :=
  fun a b c => nthBit ruleNumber (4 * a.toNat + 2 * b.toNat + c.toNat)

/-- applyRule: one synchronous step of the 1D automaton on defined a ring;
cell i reads state[(i - 1 + n) % n], state[i], state[(i + 1) % n]
(in ℕ, i - 1 + n is written i + n - 1, equal for every i since n ≥ 1 when
the range is nonempty). -/
def applyRule (state : List Bool) (ruleDict : Bool → Bool → Bool → Bool) :
    List Bool :=
  (List.range state.length).map fun i =>
    ruleDict (state.getD ((i + state.length - 1) % state.length) false)
      (state.getD i false)
      (state.getD ((i + 1) % state.length) false)

/-- derivative: D(s) = s xor applyRule(s), the mask of cells that flip. -/
def derivative (state : List Bool) (ruleDict : Bool → Bool → Bool → Bool) :
    List Bool :=
  List.zipWith xor state (applyRule state ruleDict)

/-- evolve: E(s) = s xor D(s). -/
def evolve (state : List Bool) (ruleDict : Bool → Bool → Bool → Bool) :
    List Bool :=
  List.zipWith xor state (derivative state ruleDict)

/-- groovyCommutator: G(s) = D(E(s)) xor E(D(s)). -/
def groovyCommutator (state : List Bool)
    (ruleDict : Bool → Bool → Bool → Bool) : List Bool :=
  let Ds := derivative state ruleDict
  let Es := evolve state ruleDict
  let D_Es := derivative Es ruleDict
  let E_Ds := evolve Ds ruleDict
  List.zipWith xor D_Es E_Ds

/-- groovyCommutator2: the second-order commutator, G applied to G(s). -/
def groovyCommutator2 (state : List Bool)
    (ruleDict : Bool → Bool → Bool → Bool) : List Bool :=
  let G := groovyCommutator state ruleDict
  groovyCommutator G ruleDict

/-- density: sum of the cells divided by their count; the source divides
without a guard, so a zero-length array yields NaN (modelled as none). -/
def density (arr : List ℕ) : Option ℚ :=
  if arr.length = 0 then none
  else some ((arr.sum : ℚ) / (arr.length : ℚ))

/-- t-fold iteration of applyRule, the state after t standard steps. -/
def stepN (t : ℕ) (state : List Bool)
    (ruleDict : Bool → Bool → Bool → Bool) : List Bool :=
  match t with
  | 0 => state
  | Nat.succ t => stepN t (applyRule state ruleDict) ruleDict

/-- awareRuleToDict: the 16-entry lookup table of an aware rule number; the
entry for (l, c, r, d) is binary digit 8l + 4c + 2r + d of the number. -/
def awareRuleToDict (ruleNumber : ℕ) : Bool → Bool → Bool → Bool → Bool :=
  fun l c r d =>
    nthBit ruleNumber (8 * l.toNat + 4 * c.toNat + 2 * r.toNat + d.toNat)

/-- applyAwareRule: one aware step; cell i additionally reads
prevDerivative[i], or 0 when prevDerivative is null (none). -/
def applyAwareRule (state : List Bool) (prevDerivative : Option (List Bool))
    (ruleDict : Bool → Bool → Bool → Bool → Bool) : List Bool :=
  (List.range state.length).map fun i =>
    let didChange := match prevDerivative with
      | none => false
      | some p => p.getD i false
    ruleDict (state.getD ((i + state.length - 1) % state.length) false)
      (state.getD i false)
      (state.getD ((i + 1) % state.length) false)
      didChange

/-- evolveAware: one aware step together with the derivative it produced
(next = applyAwareRule, deriv = state xor next). -/
def evolveAware (state : List Bool) (prevDeriv : Option (List Bool))
    (ruleDict : Bool → Bool → Bool → Bool → Bool) :
    List Bool × List Bool :=
  let next := applyAwareRule state prevDeriv ruleDict
  let deriv := List.zipWith xor state next
  (next, deriv)

/-- groovyCommutatorAware: the aware groovy commutator; both paths share the
derivative computed at s, exactly as in the source. -/
def groovyCommutatorAware (state : List Bool)
    (prevDeriv : Option (List Bool))
    (ruleDict : Bool → Bool → Bool → Bool → Bool) : List Bool :=
  let p1 := evolveAware state prevDeriv ruleDict
  let p2 := evolveAware p1.1 (some p1.2) ruleDict
  let Ds := List.zipWith xor state p1.2
  let p3 := evolveAware Ds (some p1.2) ruleDict
  let E_Ds := List.zipWith xor Ds p3.2
  let D_E_Ds := List.zipWith xor E_Ds p3.2
  List.zipWith xor p2.2 D_E_Ds

/-- The four memory behaviors a standard rule can be lifted with. -/
inductive MemoryBehavior where
  | ignore
  | invert
  | stabilize
  | excite
deriving DecidableEq

/-- The lifted output for one neighborhood: the base output when d = 0, and
the behavior-dependent value when d = 1 (invert flips, stabilize keeps the
center, excite forces 1, ignore keeps the base output). -/
def liftResult (memoryBehavior : MemoryBehavior) (baseResult c d : Bool) :
    Bool :=
  if d then
    match memoryBehavior with
    | MemoryBehavior.invert => !baseResult
    | MemoryBehavior.stabilize => c
    | MemoryBehavior.excite => true
    | MemoryBehavior.ignore => baseResult
  else baseResult

/-- Value of the list of binary digits, least significant first. -/
def bitsToNat : List Bool → ℕ
  | [] => 0
  | b :: bs => (cond b 1 0) + 2 * bitsToNat bs

/-- standardToAwareRule: the 16-bit rule number whose binary digit
8l + 4c + 2r + d is the lifted output for (l, c, r, d); the source ors
1 <<< idx into the result for each pattern whose output is 1, which builds
exactly this number.  The list below holds the outputs at indices 0..15, so
the entry at index 8l + 4c + 2r + d belongs to the pattern (l, c, r, d). -/
def standardToAwareRule (rule8bit : ℕ) (memoryBehavior : MemoryBehavior) :
    ℕ :=
  let dict := ruleToDict rule8bit
  let f := fun l c r d => liftResult memoryBehavior (dict l c r) c d
  bitsToNat
    [f false false false false, f false false false true,
     f false false true false, f false false true true,
     f false true false false, f false true false true,
     f false true true false, f false true true true,
     f true false false false, f true false false true,
     f true false true false, f true false true true,
     f true true false false, f true true false true,
     f true true true false, f true true true true]

/-- State after k aware steps, threading each step's derivative forward as
the next step's prevDerivative, as the source's run loop does. -/
def runAware (k : ℕ) (state : List Bool) (prevDeriv : Option (List Bool))
    (ruleDict : Bool → Bool → Bool → Bool → Bool) : List Bool :=
  match k with
  | 0 => state
  | Nat.succ k =>
    let p := evolveAware state prevDeriv ruleDict
    runAware k p.1 (some p.2) ruleDict

/-- grid[y][x], with the out-of-range default 0 (indices fed to it are
always reduced modulo the grid dimensions, as in the source). -/
def getCell (grid : List (List ℕ)) (y x : ℕ) : ℕ :=
  (grid.getD y []).getD x 0

/-- Sum of the 8 Moore neighbors of (y, x) on the torus, the terms listed in
the loop order of the source (dy then dx from -1 to 1, skipping (0, 0));
y + dy + h is written y + h - 1, y + h, y + h + 1 in ℕ. -/
def neighborCount (grid : List (List ℕ)) (h w y x : ℕ) : ℕ :=
  getCell grid ((y + h - 1) % h) ((x + w - 1) % w) +
  getCell grid ((y + h - 1) % h) ((x + w) % w) +
  getCell grid ((y + h - 1) % h) ((x + w + 1) % w) +
  getCell grid ((y + h) % h) ((x + w - 1) % w) +
  getCell grid ((y + h) % h) ((x + w + 1) % w) +
  getCell grid ((y + h + 1) % h) ((x + w - 1) % w) +
  getCell grid ((y + h + 1) % h) ((x + w) % w) +
  getCell grid ((y + h + 1) % h) ((x + w + 1) % w)

/-- evolve2D: one step of the Life-like automaton; a live cell survives iff
its neighbor count is in surviveRule, a dead cell is born iff it is in
birthRule. -/
def evolve2D (grid : List (List ℕ)) (birthRule surviveRule : List ℕ) :
    List (List ℕ) :=
  let h := grid.length
  let w := (grid.getD 0 []).length
  (List.range h).map fun y => (List.range w).map fun x =>
    let neighbors := neighborCount grid h w y x
    if getCell grid y x ≠ 0 then
      if neighbors ∈ surviveRule then 1 else 0
    else
      if neighbors ∈ birthRule then 1 else 0

/-- The otherwise empty H by W grid holding the horizontal 3-cell segment
(2, 1), (2, 2), (2, 3). -/
def blinkerH (H W : ℕ) : List (List ℕ) :=
  (List.range H).map fun y => (List.range W).map fun x =>
    if y = 2 ∧ (x = 1 ∨ x = 2 ∨ x = 3) then 1 else 0

/-- The otherwise empty H by W grid holding the vertical 3-cell segment
(1, 2), (2, 2), (3, 2). -/
def blinkerV (H W : ℕ) : List (List ℕ) :=
  (List.range H).map fun y => (List.range W).map fun x =>
    if x = 2 ∧ (y = 1 ∨ y = 2 ∨ y = 3) then 1 else 0

end GroovyViz

namespace GroovyViz

theorem length_applyRule (state : List Bool)
    (ruleDict : Bool → Bool → Bool → Bool) :
    (applyRule state ruleDict).length = state.length := by
  simp [applyRule]

theorem length_derivative (state : List Bool)
    (ruleDict : Bool → Bool → Bool → Bool) :
    (derivative state ruleDict).length = state.length := by
  simp [derivative, length_applyRule]

theorem zipWith_xor_comm (a b : List Bool) :
    List.zipWith xor a b = List.zipWith xor b a :=
  List.zipWith_comm_of_comm xor (by decide) a b

theorem zipWith_xor_cancel (a b : List Bool) (h : b.length = a.length) :
    List.zipWith xor a (List.zipWith xor a b) = b := by
  induction a generalizing b with
  | nil => cases b <;> simp_all
  | cons x a ih =>
    cases b with
    | nil => simp at h
    | cons y b =>
      simp only [List.zipWith_cons_cons]
      refine congrArg₂ _ (by cases x <;> cases y <;> rfl) (ih b (by simpa using h))

theorem length_evolve (state : List Bool)
    (ruleDict : Bool → Bool → Bool → Bool) :
    (evolve state ruleDict).length = state.length := by
  simp [evolve, length_derivative]

/-- Claim C1: for every rule number n and every binary state s, the evolution
operator equals the plain step function: evolve(s, ruleToDict(n)) is equal,
cell for cell, to applyRule(s, ruleToDict(n)). -/
theorem evolve_eq_applyRule (n : ℕ) (s : List Bool) :
    evolve s (ruleToDict n) = applyRule s (ruleToDict n) := by
  unfold evolve derivative
  exact zipWith_xor_cancel s _ (length_applyRule s _)

/-- Claim C2: decoding rule number 110 yields the table
000 to 0, 001 to 1, 010 to 1, 011 to 1, 100 to 0, 101 to 1, 110 to 1,
111 to 0. -/
theorem ruleToDict_110 :
    ruleToDict 110 false false false = false ∧
    ruleToDict 110 false false true = true ∧
    ruleToDict 110 false true false = true ∧
    ruleToDict 110 false true true = true ∧
    ruleToDict 110 true false false = false ∧
    ruleToDict 110 true false true = true ∧
    ruleToDict 110 true true false = true ∧
    ruleToDict 110 true true true = false := by
  decide

/-- Claim C7: groovyCommutator2 is the literal composition of groovyCommutator
with itself under the same table: G2(s) = G(G(s)). -/
theorem groovyCommutator2_eq_comp (s : List Bool)
    (ruleDict : Bool → Bool → Bool → Bool) :
    groovyCommutator2 s ruleDict =
      groovyCommutator (groovyCommutator s ruleDict) ruleDict := rfl

theorem xor_cancel_right (a b : List Bool) (h : b.length = a.length) :
    List.zipWith xor (List.zipWith xor a b) a = b := by
  rw [zipWith_xor_comm]
  exact zipWith_xor_cancel a b h

theorem xor_cancel_mid (a b : List Bool) (h : b.length = a.length) :
    List.zipWith xor a (List.zipWith xor b a) = b := by
  rw [zipWith_xor_comm b a]
  exact zipWith_xor_cancel a b h

theorem length_applyAwareRule (state : List Bool)
    (prevDeriv : Option (List Bool))
    (ruleDict : Bool → Bool → Bool → Bool → Bool) :
    (applyAwareRule state prevDeriv ruleDict).length = state.length := by
  simp [applyAwareRule]

theorem nthBit_bitsToNat (l : List Bool) (i : ℕ) :
    nthBit (bitsToNat l) i = l.getD i false := by
  induction l generalizing i with
  | nil => simp [bitsToNat, nthBit]
  | cons b bs ih =>
    cases i with
    | zero =>
      cases b <;> simp [bitsToNat, nthBit, Nat.add_mul_mod_self_left]
    | succ i =>
      have hdiv : bitsToNat (b :: bs) / 2 = bitsToNat bs := by
        cases b
        · simp [bitsToNat]
        · simp [bitsToNat]
          omega
      have hp : (2 : ℕ) ^ (i + 1) = 2 * 2 ^ i := by ring
      simp only [nthBit, hp, ← Nat.div_div_eq_div_mul, hdiv,
        List.getD_cons_succ]
      exact ih i

theorem awareRuleToDict_lift (n : ℕ) (behavior : MemoryBehavior)
    (l c r d : Bool) :
    awareRuleToDict (standardToAwareRule n behavior) l c r d =
      liftResult behavior (ruleToDict n l c r) c d := by
  cases l <;> cases c <;> cases r <;> cases d <;>
    simp [awareRuleToDict, standardToAwareRule, nthBit_bitsToNat, List.getD]

/-- Claim C4: decoding the lifted rule standardToAwareRule(n, behavior)
gives, for each base neighborhood (l, c, r) with base output r0, the output
r0 at changed = 0, and at changed = 1 the output r0 for ignore, c for
stabilize, not r0 for invert, and 1 for excite. -/
theorem lift_table_spec (n : ℕ) (behavior : MemoryBehavior) (l c r : Bool) :
    awareRuleToDict (standardToAwareRule n behavior) l c r false =
      ruleToDict n l c r ∧
    awareRuleToDict (standardToAwareRule n behavior) l c r true =
      (match behavior with
       | MemoryBehavior.ignore => ruleToDict n l c r
       | MemoryBehavior.stabilize => c
       | MemoryBehavior.invert => !(ruleToDict n l c r)
       | MemoryBehavior.excite => true) := by
  refine ⟨?_, ?_⟩ <;> rw [awareRuleToDict_lift] <;>
    cases behavior <;> simp [liftResult]

theorem applyAwareRule_ignore (n : ℕ) (s : List Bool)
    (p : Option (List Bool)) :
    applyAwareRule s p
        (awareRuleToDict (standardToAwareRule n MemoryBehavior.ignore)) =
      applyRule s (ruleToDict n) := by
  unfold applyAwareRule applyRule
  refine List.map_congr_left fun i _ => ?_
  rw [awareRuleToDict_lift]
  cases (match p with | none => false | some q => q.getD i false) <;>
    simp [liftResult]

theorem runAware_ignore (n : ℕ) (k : ℕ) (s : List Bool)
    (p : Option (List Bool)) :
    runAware k s p
        (awareRuleToDict (standardToAwareRule n MemoryBehavior.ignore)) =
      stepN k s (ruleToDict n) := by
  induction k generalizing s p with
  | zero => rfl
  | succ k ih =>
    show runAware k _ _ _ = _
    rw [show (evolveAware s p
        (awareRuleToDict (standardToAwareRule n MemoryBehavior.ignore))).1 =
      applyRule s (ruleToDict n) from applyAwareRule_ignore n s p]
    exact ih _ _

/-- Claim C3: the ignore lift is behavior-preserving: the decoded lifted
table does not depend on the changed bit, and running the aware automaton
with the lifted rule from null history, threading each derivative forward,
reproduces the standard automaton state after every number of steps k. -/
theorem aware_ignore_refines_standard (n : ℕ) (s : List Bool) (k : ℕ) :
    (∀ l c r : Bool,
      awareRuleToDict (standardToAwareRule n MemoryBehavior.ignore)
          l c r false =
        awareRuleToDict (standardToAwareRule n MemoryBehavior.ignore)
          l c r true) ∧
    runAware k s none
        (awareRuleToDict (standardToAwareRule n MemoryBehavior.ignore)) =
      stepN k s (ruleToDict n) := by
  refine ⟨fun l c r => ?_, runAware_ignore n k s none⟩
  rw [awareRuleToDict_lift, awareRuleToDict_lift]
  rfl

/-- Claim C8: the aware groovy commutator collapses to a two-step lookahead:
for every state, every previous derivative (none included) and every aware
table, the internal masked state s xor D(s) equals the one-step state
E(s) = applyAwareRule(s, p, t), and the commutator equals applyAwareRule
applied to E(s) with the first step's derivative as history. -/
theorem groovyCommutatorAware_two_step (s : List Bool)
    (p : Option (List Bool))
    (t : Bool → Bool → Bool → Bool → Bool) :
    List.zipWith xor s (List.zipWith xor s (applyAwareRule s p t)) =
      applyAwareRule s p t ∧
    groovyCommutatorAware s p t =
      applyAwareRule (applyAwareRule s p t)
        (some (List.zipWith xor s (applyAwareRule s p t))) t := by
  have h1 : (applyAwareRule s p t).length = s.length :=
    length_applyAwareRule s p t
  have hc : List.zipWith xor s (List.zipWith xor s (applyAwareRule s p t)) =
      applyAwareRule s p t := zipWith_xor_cancel _ _ h1
  refine ⟨hc, ?_⟩
  simp only [groovyCommutatorAware, evolveAware, hc]
  have h2 : (applyAwareRule (applyAwareRule s p t)
      (some (List.zipWith xor s (applyAwareRule s p t))) t).length =
      (applyAwareRule s p t).length := length_applyAwareRule _ _ _
  rw [zipWith_xor_cancel _ _ h2, xor_cancel_mid _ _ h2.symm,
    xor_cancel_right _ _ h2]

theorem applyRule_getElem (s : List Bool)
    (d : Bool → Bool → Bool → Bool) (i : ℕ)
    (h : i < (applyRule s d).length) :
    (applyRule s d)[i] =
      d (s.getD ((i + s.length - 1) % s.length) false) (s.getD i false)
        (s.getD ((i + 1) % s.length) false) := by
  simp [applyRule]

theorem rotate_getD (l : List Bool) (k i : ℕ) (h : i < l.length) :
    (l.rotate k).getD i false = l.getD ((i + k) % l.length) false := by
  have h1 : i < (l.rotate k).length := by simpa using h
  rw [List.getD_eq_getElem _ _ h1, List.getElem_rotate,
    List.getD_eq_getElem _ _ (Nat.mod_lt _ (by omega))]

theorem mod_shift_sub (n i k : ℕ) (hn : 0 < n) :
    ((i + n - 1) % n + k) % n = ((i + k) % n + n - 1) % n := by
  rw [Nat.mod_add_mod]
  rw [show (i + k) % n + n - 1 = (i + k) % n + (n - 1) by omega,
    Nat.mod_add_mod]
  congr 1
  omega

theorem mod_shift_add (n i k : ℕ) :
    ((i + 1) % n + k) % n = ((i + k) % n + 1) % n := by
  rw [Nat.mod_add_mod, Nat.mod_add_mod]
  congr 1
  omega

theorem applyRule_rotate (s : List Bool) (d : Bool → Bool → Bool → Bool)
    (k : ℕ) :
    applyRule (s.rotate k) d = (applyRule s d).rotate k := by
  apply List.ext_getElem
  · simp [length_applyRule]
  intro i h1 h2
  have hn : 0 < s.length := by
    simp [length_applyRule] at h1
    omega
  have hi : i < s.length := by
    simpa [length_applyRule] using h1
  rw [applyRule_getElem _ _ _ h1, List.getElem_rotate,
    applyRule_getElem _ _ _ (by
      simp only [length_applyRule, List.length_rotate]
      exact Nat.mod_lt _ hn)]
  simp only [List.length_rotate, length_applyRule]
  rw [rotate_getD s k _ (Nat.mod_lt _ hn), rotate_getD s k i hi,
    rotate_getD s k _ (Nat.mod_lt _ hn),
    mod_shift_sub s.length i k hn, mod_shift_add s.length i k]

theorem zipWith_xor_rotate (a b : List Bool) (k : ℕ)
    (h : b.length = a.length) :
    List.zipWith xor (a.rotate k) (b.rotate k) =
      (List.zipWith xor a b).rotate k := by
  apply List.ext_getElem
  · simp [h]
  intro i h1 h2
  have hi : i < a.length := by simp [h] at h1; omega
  rw [List.getElem_zipWith, List.getElem_rotate, List.getElem_rotate,
    List.getElem_rotate, List.getElem_zipWith]
  congr 2 <;> simp [h]

theorem derivative_rotate (s : List Bool) (d : Bool → Bool → Bool → Bool)
    (k : ℕ) :
    derivative (s.rotate k) d = (derivative s d).rotate k := by
  unfold derivative
  rw [applyRule_rotate, zipWith_xor_rotate _ _ _ (length_applyRule s d)]

theorem stepN_rotate (t : ℕ) (s : List Bool)
    (d : Bool → Bool → Bool → Bool) (k : ℕ) :
    stepN t (s.rotate k) d = (stepN t s d).rotate k := by
  induction t generalizing s with
  | zero => rfl
  | succ t ih =>
    show stepN t _ _ = _
    rw [applyRule_rotate]
    exact ih _

/-- Claim C5: translation invariance of the standard automaton: for every
table, state, shift k and step count t, evolving the cyclic shift of s
equals the cyclic shift of the evolved state, and the per-step derivative is
shifted the same way. -/
theorem translation_invariance (d : Bool → Bool → Bool → Bool)
    (s : List Bool) (k t : ℕ) :
    stepN t (s.rotate k) d = (stepN t s d).rotate k ∧
    derivative (stepN t (s.rotate k) d) d =
      (derivative (stepN t s d) d).rotate k := by
  refine ⟨stepN_rotate t s d k, ?_⟩
  rw [stepN_rotate, derivative_rotate]

/-- Claim C9: the source computes density as sum divided by length with no
guard, so the empty array yields NaN (none), not the 0 the specification
requires; on every nonempty binary array the value is sum over count, which
lies in the interval from 0 to 1. -/
theorem density_empty_nan_and_bounds :
    density ([] : List ℕ) = none ∧
    ∀ arr : List ℕ, arr ≠ [] → (∀ v ∈ arr, v ≤ 1) →
      density arr = some ((arr.sum : ℚ) / (arr.length : ℚ)) ∧
      0 ≤ (arr.sum : ℚ) / (arr.length : ℚ) ∧
      (arr.sum : ℚ) / (arr.length : ℚ) ≤ 1 := by
  refine ⟨rfl, fun arr hne hb => ?_⟩
  have h0 : arr.length ≠ 0 := by simpa [List.length_eq_zero] using hne
  have hl : (0 : ℚ) < (arr.length : ℚ) := by
    exact_mod_cast Nat.pos_of_ne_zero h0
  refine ⟨by simp [density, h0], by positivity, ?_⟩
  have hs : arr.sum ≤ arr.length := by
    simpa using List.sum_le_card_nsmul arr 1 hb
  rw [div_le_one hl]
  exact_mod_cast hs

theorem density_bounds_witness :
    density [1, 0] = some ((([1, 0] : List ℕ).sum : ℚ) /
        (([1, 0] : List ℕ).length : ℚ)) ∧
    0 ≤ ((([1, 0] : List ℕ).sum : ℚ) / (([1, 0] : List ℕ).length : ℚ)) ∧
    ((([1, 0] : List ℕ).sum : ℚ) / (([1, 0] : List ℕ).length : ℚ)) ≤ 1 :=
  density_empty_nan_and_bounds.2 [1, 0] (by decide) (by decide)

theorem getD_range_map {α : Type} (n : ℕ) (f : ℕ → α) (i : ℕ) (dflt : α) :
    ((List.range n).map f).getD i dflt = if i < n then f i else dflt := by
  by_cases h : i < n
  · rw [if_pos h, List.getD_eq_getElem _ _ (by simpa using h)]
    simp
  · rw [if_neg h]
    exact List.getD_eq_default _ _ (by simpa using Nat.le_of_not_lt h)

theorem mod_mid (n y : ℕ) (hy : y < n) : (y + n) % n = y := by
  rw [Nat.add_mod_right, Nat.mod_eq_of_lt hy]

theorem mod_up_eq (n y t : ℕ) (hn : 5 ≤ n) (hy : y < n) (ht : t ≤ 3) :
    ((y + n - 1) % n = t) ↔ y = t + 1 := by
  rcases y with _ | y0
  · rw [show 0 + n - 1 = n - 1 by omega, Nat.mod_eq_of_lt (by omega)]
    omega
  · rw [show y0 + 1 + n - 1 = y0 + n by omega, Nat.add_mod_right,
      Nat.mod_eq_of_lt (by omega)]
    omega

theorem mod_down_eq (n y t : ℕ) (hn : 5 ≤ n) (hy : y < n) (ht1 : 1 ≤ t)
    (ht3 : t ≤ 3) : ((y + n + 1) % n = t) ↔ y + 1 = t := by
  by_cases h : y + 1 < n
  · rw [show y + n + 1 = (y + 1) + n by omega, Nat.add_mod_right,
      Nat.mod_eq_of_lt h]
  · rw [show y + n + 1 = n + n by omega, Nat.add_mod_right, Nat.mod_self]
    omega

theorem getCell_blinkerH (H W y x : ℕ) :
    getCell (blinkerH H W) y x =
      if y < H ∧ x < W ∧ y = 2 ∧ (x = 1 ∨ x = 2 ∨ x = 3) then 1 else 0 := by
  unfold getCell blinkerH
  rw [getD_range_map]
  by_cases hy : y < H
  · rw [if_pos hy, getD_range_map]
    split_ifs <;> omega
  · rw [if_neg hy, if_neg (by omega)]
    rfl

theorem getCell_blinkerV (H W y x : ℕ) :
    getCell (blinkerV H W) y x =
      if y < H ∧ x < W ∧ x = 2 ∧ (y = 1 ∨ y = 2 ∨ y = 3) then 1 else 0 := by
  unfold getCell blinkerV
  rw [getD_range_map]
  by_cases hy : y < H
  · rw [if_pos hy, getD_range_map]
    split_ifs <;> omega
  · rw [if_neg hy, if_neg (by omega)]
    rfl

set_option maxHeartbeats 1600000 in
theorem evolve2D_blinkerH (H W : ℕ) (hH : 5 ≤ H) (hW : 5 ≤ W) :
    evolve2D (blinkerH H W) [3] [2, 3] = blinkerV H W := by
  have hlen : (blinkerH H W).length = H := by simp [blinkerH]
  have hrow : ((blinkerH H W).getD 0 []).length = W := by
    unfold blinkerH
    rw [getD_range_map, if_pos (by omega)]
    simp
  unfold evolve2D blinkerV
  simp only [hlen, hrow]
  apply List.map_congr_left
  intro y hyr
  have hy : y < H := List.mem_range.mp hyr
  apply List.map_congr_left
  intro x hxr
  have hx : x < W := List.mem_range.mp hxr
  simp only [neighborCount]
  simp only [mod_mid H y hy, mod_mid W x hx]
  have b1 : (y + H - 1) % H < H := Nat.mod_lt _ (by omega)
  have b2 : (y + H + 1) % H < H := Nat.mod_lt _ (by omega)
  have b3 : (x + W - 1) % W < W := Nat.mod_lt _ (by omega)
  have b4 : (x + W + 1) % W < W := Nat.mod_lt _ (by omega)
  simp only [getCell_blinkerH, b1, b2, b3, b4, hy, hx, true_and,
    mod_up_eq H y 2 hH hy (by norm_num),
    mod_down_eq H y 2 hH hy (by norm_num) (by norm_num),
    mod_up_eq W x 1 hW hx (by norm_num),
    mod_up_eq W x 2 hW hx (by norm_num),
    mod_up_eq W x 3 hW hx (by norm_num),
    mod_down_eq W x 1 hW hx (by norm_num) (by norm_num),
    mod_down_eq W x 2 hW hx (by norm_num) (by norm_num),
    mod_down_eq W x 3 hW hx (by norm_num) (by norm_num),
    List.mem_cons, List.mem_singleton, List.not_mem_nil, or_false]
  rcases Nat.lt_or_ge y 5 with hy5 | hy5
  · rcases Nat.lt_or_ge x 5 with hx5 | hx5
    · interval_cases y <;> interval_cases x <;> decide
    · have nx0 : x ≠ 0 := by omega
      have nx1 : x ≠ 1 := by omega
      have nx2 : x ≠ 2 := by omega
      have nx3 : x ≠ 3 := by omega
      have nx4 : x ≠ 4 := by omega
      have mx1 : x + 1 ≠ 1 := by omega
      have mx2 : x + 1 ≠ 2 := by omega
      have mx3 : x + 1 ≠ 3 := by omega
      simp [nx0, nx1, nx2, nx3, nx4, mx1, mx2, mx3]
  · have ny1 : y ≠ 1 := by omega
    have ny2 : y ≠ 2 := by omega
    have ny3 : y ≠ 3 := by omega
    have my2 : y + 1 ≠ 2 := by omega
    simp [ny1, ny2, ny3, my2]

set_option maxHeartbeats 1600000 in
theorem evolve2D_blinkerV (H W : ℕ) (hH : 5 ≤ H) (hW : 5 ≤ W) :
    evolve2D (blinkerV H W) [3] [2, 3] = blinkerH H W := by
  have hlen : (blinkerV H W).length = H := by simp [blinkerV]
  have hrow : ((blinkerV H W).getD 0 []).length = W := by
    unfold blinkerV
    rw [getD_range_map, if_pos (by omega)]
    simp
  unfold evolve2D blinkerH
  simp only [hlen, hrow]
  apply List.map_congr_left
  intro y hyr
  have hy : y < H := List.mem_range.mp hyr
  apply List.map_congr_left
  intro x hxr
  have hx : x < W := List.mem_range.mp hxr
  simp only [neighborCount]
  simp only [mod_mid H y hy, mod_mid W x hx]
  have b1 : (y + H - 1) % H < H := Nat.mod_lt _ (by omega)
  have b2 : (y + H + 1) % H < H := Nat.mod_lt _ (by omega)
  have b3 : (x + W - 1) % W < W := Nat.mod_lt _ (by omega)
  have b4 : (x + W + 1) % W < W := Nat.mod_lt _ (by omega)
  simp only [getCell_blinkerV, b1, b2, b3, b4, hy, hx, true_and,
    mod_up_eq W x 2 hW hx (by norm_num),
    mod_down_eq W x 2 hW hx (by norm_num) (by norm_num),
    mod_up_eq H y 1 hH hy (by norm_num),
    mod_up_eq H y 2 hH hy (by norm_num),
    mod_up_eq H y 3 hH hy (by norm_num),
    mod_down_eq H y 1 hH hy (by norm_num) (by norm_num),
    mod_down_eq H y 2 hH hy (by norm_num) (by norm_num),
    mod_down_eq H y 3 hH hy (by norm_num) (by norm_num),
    List.mem_cons, List.mem_singleton, List.not_mem_nil, or_false]
  rcases Nat.lt_or_ge y 5 with hy5 | hy5
  · rcases Nat.lt_or_ge x 5 with hx5 | hx5
    · interval_cases y <;> interval_cases x <;> decide
    · have nx1 : x ≠ 1 := by omega
      have nx2 : x ≠ 2 := by omega
      have nx3 : x ≠ 3 := by omega
      have mx2 : x + 1 ≠ 2 := by omega
      simp [nx1, nx2, nx3, mx2]
  · have ny0 : y ≠ 0 := by omega
    have ny1 : y ≠ 1 := by omega
    have ny2 : y ≠ 2 := by omega
    have ny3 : y ≠ 3 := by omega
    have ny4 : y ≠ 4 := by omega
    have my1 : y + 1 ≠ 1 := by omega
    have my2 : y + 1 ≠ 2 := by omega
    have my3 : y + 1 ≠ 3 := by omega
    simp [ny0, ny1, ny2, ny3, ny4, my1, my2, my3]

/-- Claim C6: on every otherwise empty toroidal grid of size at least 5 by 5,
one application of evolve2D with birth set 3 and survive set 2,3 maps the
horizontal 3-cell segment through (2, 2) to the vertical 3-cell segment
through (2, 2), and a second application maps it back. -/
theorem blinker_period_two (H W : ℕ) (hH : 5 ≤ H) (hW : 5 ≤ W) :
    evolve2D (blinkerH H W) [3] [2, 3] = blinkerV H W ∧
    evolve2D (blinkerV H W) [3] [2, 3] = blinkerH H W :=
  ⟨evolve2D_blinkerH H W hH hW, evolve2D_blinkerV H W hH hW⟩

theorem blinker_period_two_witness :
    evolve2D (blinkerH 5 5) [3] [2, 3] = blinkerV 5 5 ∧
    evolve2D (blinkerV 5 5) [3] [2, 3] = blinkerH 5 5 :=
  blinker_period_two 5 5 (by decide) (by decide)

/-- Claim C10: out-of-range rule numbers are not rejected at construction:
ruleToDict silently accepts 256 and yields the same table as rule 0, and
awareRuleToDict silently accepts 65536 and yields the same table as aware
rule 0 (only the low bits of the rule number are ever read). -/
theorem out_of_range_rule_accepted :
    (∀ a b c : Bool, ruleToDict 256 a b c = ruleToDict 0 a b c) ∧
    (∀ l c r d : Bool,
      awareRuleToDict 65536 l c r d = awareRuleToDict 0 l c r d) := by
  decide

end GroovyViz
